import Mathlib

/-!
Shallow embedding of the muffinpanrecipes production core:
the pipeline state machine (`backend/pipeline/recipe_pipeline.py`),
the record lifecycle/storage layer (`backend/data/recipe.py`),
and the publishing pipeline (`backend/publishing/pipeline.py`,
`backend/publishing/templates.py`).

Python dictionaries are embedded as association lists keyed by `String`;
directories of JSON documents as association lists keyed by file stem;
`datetime` timestamps are environment input and are not modelled (no claim
depends on them).  Exceptions are embedded as `Except` results with a
structured error type (the Python message strings are interpolation of the
same data).
-/

/-- Lookup in an association list (Python `dict[key]` / `dict.get`). -/
def lookupA {α : Type} : List (String × α) → String → Option α
  | [], _ => none
  | (k, v) :: rest, key => if k = key then some v else lookupA rest key

/-- Update-or-append in an association list (Python `dict[key] = v`,
or writing file `key` into a directory: replaces an existing binding in
place, otherwise appends). -/
def setA {α : Type} : List (String × α) → String → α → List (String × α)
  | [], key, v => [(key, v)]
  | (k, w) :: rest, key, v =>
    if k = key then (key, v) :: rest else (k, w) :: setA rest key v

/-- Remove a key from an association list (Python `del dict[key]` or
`Path.unlink`; keys are unique in every reachable state, so removing all
bindings coincides with removing the one binding). -/
def delK {α : Type} : List (String × α) → String → List (String × α)
  | [], _ => []
  | (k, v) :: rest, key =>
    if k = key then delK rest key else (k, v) :: delK rest key

/-! ## Stage engine (`backend/pipeline/recipe_pipeline.py`) -/

/-- `PipelineStage` enum. -/
inductive PipelineStage where
  | ideation
  | recipe_development
  | photography
  | copywriting
  | creative_review
  | revisions
  | final_approval
  | deployment
  | complete
deriving DecidableEq

/-- The string value of a `PipelineStage` enum member. -/
def PipelineStage.value : PipelineStage → String
  | .ideation => "ideation"
  | .recipe_development => "recipe_development"
  | .photography => "photography"
  | .copywriting => "copywriting"
  | .creative_review => "creative_review"
  | .revisions => "revisions"
  | .final_approval => "final_approval"
  | .deployment => "deployment"
  | .complete => "complete"

/-- A Python value stored in a work-product mapping (`Dict[str, Any]`):
the pipeline only ever reads strings and lists of strings out of it. -/
inductive PyVal where
  | str (s : String)
  | strList (l : List String)
deriving DecidableEq

/-- A work product: a Python `Dict[str, Any]` as an association list. -/
abbrev WorkProduct : Type := List (String × PyVal)

/-- `work_product.get("photos", [])` followed by the `List[str]` coercion
performed by the pydantic field. -/
def getPhotos (wp : WorkProduct) : List String :=
  match lookupA wp "photos" with
  | some (PyVal.strList l) => l
  | _ => []

/-- One review entry appended by `RecipeContext.add_review` (timestamp
omitted). -/
structure Review where
  reviewer : String
  approved : Bool
  feedback : String
deriving DecidableEq

/-- One revision request appended by `RecipeContext.add_revision_request`
(timestamp omitted). -/
structure RevisionRequest where
  stage : String
  reason : String
  requested_by : String
deriving DecidableEq

/-- `RecipeContext`: context for a recipe moving through the pipeline.
`messages`, `agent_contributions` and the timestamps are carried by the
source model but never read by the pipeline operations. -/
structure RecipeContext where
  recipe_id : String
  concept : String
  current_stage : PipelineStage := .ideation
  recipe_data : WorkProduct := []
  photos : List String := []
  recipe_copy : WorkProduct := []
  reviews : List Review := []
  revision_requests : List RevisionRequest := []
  revision_count : Nat := 0
deriving DecidableEq

/-- `RecipePipeline` state: the active dict and the completed list. -/
structure RecipePipeline where
  active_recipes : List (String × RecipeContext) := []
  completed_recipes : List RecipeContext := []
deriving DecidableEq

/-- `RecipePipeline.__init__`. -/
def RecipePipeline.init : RecipePipeline := {}

/-- Structured form of the `ValueError`s raised by the pipeline. -/
inductive PipelineError where
  | notFound (recipe_id : String)
  | noNextStage (stage : PipelineStage)
deriving DecidableEq

/-- `RecipePipeline.STAGE_FLOW` transition table (`dict.get` on it). -/
def STAGE_FLOW : PipelineStage → Option PipelineStage
  | .ideation => some .recipe_development
  | .recipe_development => some .photography
  | .photography => some .copywriting
  | .copywriting => some .creative_review
  | .creative_review => some .final_approval
  | .revisions => some .creative_review
  | .final_approval => some .deployment
  | .deployment => some .complete
  | .complete => none

/-- `RecipePipeline.start_recipe`: unconditionally binds a fresh context
at the initial stage under `recipe_id` in the active dict. -/
def RecipePipeline.start_recipe (p : RecipePipeline) (recipe_id concept : String) :
    RecipePipeline × RecipeContext :=
  let context : RecipeContext := { recipe_id := recipe_id, concept := concept }
  ({ p with active_recipes := setA p.active_recipes recipe_id context }, context)

/-- `RecipePipeline.advance_stage`: optionally stores the work product into
the slot of the current stage (Python `if work_product:` is falsy for both
`None` and an empty dict), then moves to the successor stage; on reaching
`complete` the context is moved from the active dict to the completed list. -/
def RecipePipeline.advance_stage (p : RecipePipeline) (recipe_id : String)
    (work_product : Option WorkProduct) :
    Except PipelineError (RecipePipeline × PipelineStage) :=
  match lookupA p.active_recipes recipe_id with
  | none => .error (.notFound recipe_id)
  | some context =>
    let current_stage : PipelineStage := context.current_stage
    let context :=
      match work_product with
      | some wp =>
        if wp.isEmpty then context
        else if current_stage = PipelineStage.recipe_development then { context with recipe_data := wp }
        else if current_stage = PipelineStage.photography then { context with photos := getPhotos wp }
        else if current_stage = PipelineStage.copywriting then { context with recipe_copy := wp }
        else context
      | none => context
    match STAGE_FLOW current_stage with
    | none => .error (.noNextStage current_stage)
    | some next_stage =>
      let context := { context with current_stage := next_stage }
      if next_stage = .complete then
        .ok ({ active_recipes := delK p.active_recipes recipe_id,
               completed_recipes := p.completed_recipes ++ [context] }, next_stage)
      else
        .ok ({ p with active_recipes := setA p.active_recipes recipe_id context }, next_stage)

/-- `RecipePipeline.request_revisions`: force-sets the current stage to the
requested target (any stage is accepted), logging a revision request. -/
def RecipePipeline.request_revisions (p : RecipePipeline) (recipe_id : String)
    (stage_to_revise : PipelineStage) (reason requested_by : String) :
    Except PipelineError (RecipePipeline × PipelineStage) :=
  match lookupA p.active_recipes recipe_id with
  | none => .error (.notFound recipe_id)
  | some context =>
    let context := { context with
      revision_requests :=
        context.revision_requests ++ [⟨stage_to_revise.value, reason, requested_by⟩],
      revision_count := context.revision_count + 1,
      current_stage := stage_to_revise }
    .ok ({ p with active_recipes := setA p.active_recipes recipe_id context }, stage_to_revise)

/-- Iterate `advance_stage` with no work product `n` times, collecting the
stage returned by each call. -/
def advanceTimes (recipe_id : String) : Nat → RecipePipeline →
    Except PipelineError (RecipePipeline × List PipelineStage)
  | 0, p => .ok (p, [])
  | n + 1, p =>
    match p.advance_stage recipe_id none with
    | .error e => .error e
    | .ok (p', st) =>
      match advanceTimes recipe_id n p' with
      | .error e => .error e
      | .ok (p'', sts) => .ok (p'', st :: sts)

/-! ## Record lifecycle and storage (`backend/data/recipe.py`) -/

/-- `RecipeStatus` enum. -/
inductive RecipeStatus where
  | pending
  | approved
  | published
  | rejected
deriving DecidableEq

/-- The four statuses in the enum's declaration order (the order Python
iterates `for status in RecipeStatus`). -/
def statuses : List RecipeStatus :=
  [.pending, .approved, .published, .rejected]

/-- One ingredient: a Python `Dict[str, str]`. -/
abbrev Ingredient : Type := List (String × String)

/-- `ingredient.get(key, "")`. -/
def Ingredient.getD (ing : Ingredient) (key : String) : String :=
  (lookupA ing key).getD ""

/-- The durable `Recipe` record.  The `datetime` fields
(`created_at`, `updated_at`, `published_at`) are wall-clock input and are
not modelled; no claim reads them. -/
structure Recipe where
  recipe_id : String
  title : String
  concept : String
  description : String
  ingredients : List Ingredient
  instructions : List String
  servings : Nat := 12
  prep_time_minutes : Nat
  cook_time_minutes : Nat
  difficulty : String := "medium"
  photos : List String := []
  featured_photo : Option String := none
  tags : List String := []
  category : String := "savory"
  slug : String
  seo_description : Option String := none
  status : RecipeStatus := .pending
  review_notes : Option String := none
  created_by : String := "AI Creative Team"
  story_id : Option String := none
deriving DecidableEq

/-- The status-partitioned record store `data/recipes/<status>/<id>.json`:
one directory per status, each a mapping from file stem (`recipe_id`) to
the parsed document it holds. -/
abbrev RecipeFS : Type := RecipeStatus → List (String × Recipe)

/-- `Recipe.save_to_file(base_dir, use_status_dir=True)`: writes the record
into the directory of its current status, keyed by `recipe_id`. -/
def Recipe.save_to_file (r : Recipe) (fs : RecipeFS) : RecipeFS :=
  fun s => if s = r.status then setA (fs s) r.recipe_id r else fs s

/-- `Recipe.transition_status`: remember the old path, mutate status and
(non-empty) notes, save at the new path, then delete the old path if it
exists and differs.  Returns the updated record and file system. -/
def Recipe.transition_status (r : Recipe) (new_status : RecipeStatus)
    (fs : RecipeFS) (notes : Option String) : Recipe × RecipeFS :=
  let old_status := r.status
  let r := { r with status := new_status }
  let r :=
    match notes with
    | some n => if n = "" then r else { r with review_notes := some n }
    | none => r
  let fs := r.save_to_file fs
  let fs :=
    if (lookupA (fs old_status) r.recipe_id).isSome ∧ old_status ≠ new_status then
      fun s => if s = old_status then delK (fs s) r.recipe_id else fs s
    else fs
  (r, fs)

/-- `Recipe.list_by_status`: the parsed documents of one status directory
(a corrupt document is skipped by the source; stored documents are
well-formed by construction in this model). -/
def Recipe.list_by_status (fs : RecipeFS) (status : RecipeStatus) : List Recipe :=
  (fs status).map Prod.snd

/-- Run a sequence of `transition_status` calls on one record, threading
the in-memory record object and the file system. -/
def runTransitions : Recipe → RecipeFS → List (RecipeStatus × Option String) →
    Recipe × RecipeFS
  | r, fs, [] => (r, fs)
  | r, fs, (st, notes) :: rest =>
    let (r', fs') := r.transition_status st fs notes
    runTransitions r' fs' rest

/-- The storage invariant for one identifier: a document for it is on disk
in exactly the directory of the record's current status. -/
def oneDocInv (fs : RecipeFS) (r : Recipe) : Prop :=
  ∀ s ∈ statuses, ((lookupA (fs s) r.recipe_id).isSome ↔ s = r.status)

instance (fs : RecipeFS) (r : Recipe) : Decidable (oneDocInv fs r) := by
  unfold oneDocInv
  infer_instance

/-! ## Template rendering (`backend/publishing/templates.py`) -/

/-- Leading maximal run of digits (the greedy `\d+` once anchored). -/
def takeDigits : List Char → List Char
  | [] => []
  | c :: rest => if c.isDigit then c :: takeDigits rest else []

/-- `re.search(r'(\d+)', s)`: the leftmost maximal run of decimal digits,
if any. -/
def searchDigits : List Char → Option (List Char)
  | [] => none
  | c :: rest => if c.isDigit then some (c :: takeDigits rest) else searchDigits rest

/-- `parse_duration`: empty (or absent) input gives `"PT0M"`; otherwise the
first digit run of the string, verbatim, wrapped as `"PT<run>M"`; `"PT0M"`
if the string has no digit. -/
def parse_duration (duration_str : String) : String :=
  if duration_str = "" then "PT0M"
  else
    match searchDigits duration_str.data with
    | some ds => "PT" ++ String.mk ds ++ "M"
    | none => "PT0M"

/-- Modelled from the spec wording of the claim (not from the source): the
first integer occurring in the string, rendered canonically.  Used to
compare the claimed behaviour with `parse_duration`. -/
def digitsToNat (ds : List Char) : Nat :=
  ds.foldl (fun acc c => 10 * acc + (c.toNat - 48)) 0

/-- Modelled from the spec wording of the claim (not from the source):
`'PT<n>M'` where `<n>` is the first integer occurring in the string,
`'PT0M'` when the string is empty or has no digit. -/
def parse_duration_claimed (duration_str : String) : String :=
  if duration_str = "" then "PT0M"
  else
    match searchDigits duration_str.data with
    | some ds => "PT" ++ toString (digitsToNat ds) ++ "M"
    | none => "PT0M"

/-- `html.escape(s, quote=True)`. -/
def htmlEscape (s : String) : String :=
  ((((s.replace "&" "&amp;").replace "<" "&lt;").replace ">" "&gt;").replace
    "\"" "&quot;").replace "'" "&#x27;"

/-- Display string for one ingredient (`f"{amount} {item}" if amount else
item`), shared by `_recipe_to_web_format`, `render_ingredients_html` and
`generate_json_ld`. -/
def ingredientDisplay (ing : Ingredient) : String :=
  let amount := ing.getD "amount"
  let item := ing.getD "item"
  if amount = "" then item else amount ++ " " ++ item

/-- `render_ingredients_html`: at publish time it always receives the
web-format ingredient display strings, so the legacy string branch
(`text = str(ingredient)`) is the one taken. -/
def render_ingredients_html (ingredients : List String) : String :=
  String.intercalate "\n"
    (ingredients.map fun text =>
      "<li class=\"border-b border-gray-50 pb-2\">" ++
        htmlEscape text ++ "</li>")

/-- Two-digit step number (`f"{idx + 1:02d}"`). -/
def stepNumber (n : Nat) : String :=
  if n < 10 then "0" ++ toString n else toString n

/-- `render_instructions_html`. -/
def render_instructions_html (instructions : List String) : String :=
  String.intercalate "\n"
    ((instructions.enum.map fun p =>
      "<li class=\"flex gap-4\">" ++
        "<span class=\"font-serif text-terracotta font-bold italic text-xl\">" ++
        stepNumber (p.1 + 1) ++ "</span>" ++
        "<span>" ++ htmlEscape p.2 ++ "</span>" ++
        "</li>"))

/-! ## Publishing pipeline (`backend/publishing/pipeline.py`) -/

/-- The flattened web-display projection produced by
`_recipe_to_web_format` (one entry of `src/recipes.json`).  The field
`yield_str` carries the JSON key `"yield"`. -/
structure WebRecipeView where
  slug : String
  title : String
  category : String
  image : String
  description : String
  prep : String
  cook : String
  yield_str : String
  ingredients : List String
  instructions : List String
deriving DecidableEq

/-- `_recipe_to_web_format` (Python `or` also falls through an empty
`featured_photo` string). -/
def recipe_to_web_format (recipe : Recipe) : WebRecipeView :=
  let fallback : String :=
    match recipe.photos with
    | [] => ""
    | p :: _ => p
  { slug := recipe.slug
    title := recipe.title
    category := recipe.category
    image :=
      match recipe.featured_photo with
      | some f => if f = "" then fallback else f
      | none => fallback
    description := recipe.description
    prep := toString recipe.prep_time_minutes ++ " mins"
    cook := toString recipe.cook_time_minutes ++ " mins"
    yield_str := toString recipe.servings ++ " portions"
    ingredients := recipe.ingredients.map ingredientDisplay
    instructions := recipe.instructions }

/-- JSON string literal (`json.dumps` escaping of control characters and
non-ASCII code points abstracted; no claim inspects those). -/
def jsonString (s : String) : String :=
  "\"" ++ (s.replace "\\" "\\\\").replace "\"" "\\\"" ++ "\""

/-- JSON array of string literals with `json.dumps` default separators. -/
def jsonStrList (l : List String) : String :=
  "[" ++ String.intercalate ", " (l.map jsonString) ++ "]"

/-- One `HowToStep` object of the `recipeInstructions` array. -/
def howToStep (step : String) : String :=
  "\x7b\"@type\": \"HowToStep\", \"text\": " ++ jsonString step ++ "\x7d"

/-- `generate_json_ld`: the schema.org `Recipe` embed tag, keys in the
source's insertion order, the optional `image` key appended only for a
non-empty image path. -/
def generate_json_ld (d : WebRecipeView) : String :=
  let prep_iso := parse_duration d.prep
  let cook_iso := parse_duration d.cook
  let body :=
    "\"@context\": \"https://schema.org/\", \"@type\": \"Recipe\", \"name\": " ++
    jsonString d.title ++
    ", \"description\": " ++ jsonString d.description ++
    ", \"prepTime\": " ++ jsonString prep_iso ++
    ", \"cookTime\": " ++ jsonString cook_iso ++
    ", \"recipeYield\": " ++ jsonString d.yield_str ++
    ", \"recipeCategory\": " ++ jsonString d.category ++
    ", \"recipeIngredient\": " ++ jsonStrList d.ingredients ++
    ", \"recipeInstructions\": [" ++
    String.intercalate ", " (d.instructions.map howToStep) ++ "]"
  let body :=
    if d.image = "" then body
    else body ++ ", \"image\": " ++
      jsonString ("https://muffinpanrecipes.com/" ++ d.image)
  "<script type=\"application/ld+json\">\x7b" ++ body ++ "\x7d</script>"

/-- `render_recipe_page`: token substitution applied in the source's
replacement-dict insertion order. -/
def render_recipe_page (template_content : String) (d : WebRecipeView) : String :=
  let ingredients_html := render_ingredients_html d.ingredients
  let instructions_html := render_instructions_html d.instructions
  let json_ld_script := generate_json_ld d
  ((((((((((template_content.replace "\x7b\x7b slug \x7d\x7d" d.slug).replace
    "\x7b\x7b title \x7d\x7d" (htmlEscape d.title)).replace
    "\x7b\x7b description \x7d\x7d" (htmlEscape d.description)).replace
    "\x7b\x7b image_path \x7d\x7d" d.image).replace
    "\x7b\x7b category \x7d\x7d" (htmlEscape d.category)).replace
    "\x7b\x7b prep_time \x7d\x7d" (htmlEscape d.prep)).replace
    "\x7b\x7b cook_time \x7d\x7d" (htmlEscape d.cook)).replace
    "\x7b\x7b yield \x7d\x7d" (htmlEscape d.yield_str)).replace
    "\x7b\x7b ingredients_list \x7d\x7d" ingredients_html).replace
    "\x7b\x7b instructions_list \x7d\x7d" instructions_html).replace
    "\x7b\x7b json_ld \x7d\x7d" json_ld_script

/-- The filesystem state a `PublishingPipeline` instance reads and writes:
the record store under `data/recipes/`, the generated page tree
`src/recipes/<slug>/index.html` keyed by slug, the index document
`src/recipes.json`, `src/sitemap.xml` held as its list of lines, the page
template, and the current date used for `<lastmod>` stamps.  The git sync
and the Discord notification are external side effects outside this state:
a git failure is logged without affecting the outcome, and
`notify_recipe_ready` catches its own errors and returns a `bool`. -/
structure SiteState where
  dataFS : RecipeFS
  pages : List (String × String) := []
  recipesIndex : Option (List WebRecipeView) := none
  sitemap : Option (List String) := none
  template : Option String := none
  today : String := ""

/-- `_load_recipes_index`: a missing index file yields an empty list. -/
def loadIndex (st : SiteState) : List WebRecipeView :=
  match st.recipesIndex with
  | none => []
  | some l => l

/-- The upsert step of `_update_recipes_index`: find the first index entry
with the same slug and replace it, else append. -/
def upsertBySlug (index : List WebRecipeView) (recipe_data : WebRecipeView) :
    List WebRecipeView :=
  match index.findIdx? (fun r => r.slug = recipe_data.slug) with
  | some idx => index.set idx recipe_data
  | none => index ++ [recipe_data]

/-- `_update_recipes_index`: load the index, upsert the entry by slug, and
persist the whole document. -/
def update_recipes_index (st : SiteState) (recipe_data : WebRecipeView) : SiteState :=
  { st with recipesIndex := some (upsertBySlug (loadIndex st) recipe_data) }

/-- The five sitemap lines of one indexed slug. -/
def sitemapUrlEntry (today slug : String) : List String :=
  [ "  <url>",
    "    <loc>https://muffinpanrecipes.com/recipes/" ++ slug ++ "</loc>",
    "    <lastmod>" ++ today ++ "</lastmod>",
    "    <priority>0.8</priority>",
    "  </url>" ]

/-- The full sitemap line list `_generate_sitemap` writes (the file is the
newline join): a home entry plus one entry per indexed non-empty slug. -/
def sitemapLines (today : String) (index : List WebRecipeView) : List String :=
  ([ "<?xml version=\"1.0\" encoding=\"UTF-8\"?>",
     "<urlset xmlns=\"http://www.sitemaps.org/schemas/sitemap/0.9\">",
     "  <url>",
     "    <loc>https://muffinpanrecipes.com/</loc>",
     "    <lastmod>" ++ today ++ "</lastmod>",
     "    <priority>1.0</priority>",
     "  </url>" ] ++
   index.foldl
     (fun acc r => if r.slug = "" then acc else acc ++ sitemapUrlEntry today r.slug)
     []) ++
  ["</urlset>"]

/-- `_generate_sitemap`: regenerate the sitemap from the current index. -/
def generate_sitemap (st : SiteState) : SiteState :=
  { st with sitemap := some (sitemapLines st.today (loadIndex st)) }

/-- Scan of `_load_recipe`: try the status directories in enum order. -/
def load_recipe_scan : List RecipeStatus → RecipeFS → String → Option Recipe
  | [], _, _ => none
  | s :: rest, fs, recipe_id =>
    match lookupA (fs s) recipe_id with
    | some r => some r
    | none => load_recipe_scan rest fs recipe_id

/-- `_load_recipe`: first match over the four status directories, `none`
standing for the `FileNotFoundError`. -/
def load_recipe (st : SiteState) (recipe_id : String) : Option Recipe :=
  load_recipe_scan statuses st.dataFS recipe_id

/-- The failure causes of the `publish_recipe` try block that are visible
in the modelled state. -/
inductive PublishFailure where
  | recipeNotFound (recipe_id : String)
  | notApproved (status : RecipeStatus)
  | templateNotFound
deriving DecidableEq

/-- The body of the `publish_recipe` try block: load, guard on `approved`,
render and save the page, upsert the index, regenerate the sitemap, and
transition the record to `published`.  A failure carries the state reached
when the exception was raised (all three causes precede any write). -/
def publishAttempt (st : SiteState) (recipe_id : String) :
    SiteState × Except PublishFailure Unit :=
  match load_recipe st recipe_id with
  | none => (st, .error (.recipeNotFound recipe_id))
  | some recipe =>
    if recipe.status ≠ RecipeStatus.approved then
      (st, .error (.notApproved recipe.status))
    else
      match st.template with
      | none => (st, .error .templateNotFound)
      | some template_content =>
        let recipe_data := recipe_to_web_format recipe
        let html_content := render_recipe_page template_content recipe_data
        let st := { st with pages := setA st.pages recipe.slug html_content }
        let st := update_recipes_index st recipe_data
        let st := generate_sitemap st
        let tr := recipe.transition_status RecipeStatus.published st.dataFS
          (some "Published to live site")
        ({ st with dataFS := tr.2 }, .ok ())

/-- `publish_recipe`: the whole body runs under `try`/`except Exception`,
so every failure is reported only as the boolean result. -/
def publish_recipe (st : SiteState) (recipe_id : String) : SiteState × Bool :=
  match publishAttempt st recipe_id with
  | (st', .ok _) => (st', true)
  | (st', .error _) => (st', false)

/-- One per-item entry of the batch result's `recipes` list. -/
structure ItemOutcome where
  recipe_id : String
  title : String
  status : String
deriving DecidableEq

/-- The aggregate result dictionary of `publish_all_approved`. -/
structure BatchResult where
  success : Nat
  failed : Nat
  total : Nat
  recipes : List ItemOutcome
deriving DecidableEq

/-- The loop body of `publish_all_approved`: publish one record and
record its per-item outcome and tally. -/
def publishAllStep (acc : SiteState × BatchResult) (recipe : Recipe) :
    SiteState × BatchResult :=
  let pr := publish_recipe acc.1 recipe.recipe_id
  if pr.2 then
    (pr.1, { acc.2 with
      success := acc.2.success + 1,
      recipes := acc.2.recipes ++
        [{ recipe_id := recipe.recipe_id, title := recipe.title,
           status := "published" }] })
  else
    (pr.1, { acc.2 with
      failed := acc.2.failed + 1,
      recipes := acc.2.recipes ++
        [{ recipe_id := recipe.recipe_id, title := recipe.title,
           status := "failed" }] })

/-- `publish_all_approved`: snapshot the approved directory, publish each
record in turn, and tally a per-item outcome entry either way. -/
def publish_all_approved (st : SiteState) : SiteState × BatchResult :=
  let approved_recipes := Recipe.list_by_status st.dataFS .approved
  if approved_recipes.isEmpty then
    (st, { success := 0, failed := 0, total := 0, recipes := [] })
  else
    approved_recipes.foldl publishAllStep
      (st, { success := 0, failed := 0, total := approved_recipes.length,
             recipes := [] })

/-- `rebuild_site`: load the template, snapshot the published records; if
none, return success immediately (nothing cleared or rewritten); otherwise
clear the page tree, re-render every page, rebuild the index from scratch
and regenerate the sitemap. -/
def rebuild_site (st : SiteState) : SiteState × Bool :=
  match st.template with
  | none => (st, false)
  | some template_content =>
    let published_recipes := Recipe.list_by_status st.dataFS .published
    if published_recipes.isEmpty then (st, true)
    else
      let st := { st with pages := [] }
      let built := published_recipes.foldl
        (fun (acc : SiteState × List WebRecipeView) recipe =>
          let recipe_data := recipe_to_web_format recipe
          let html_content := render_recipe_page template_content recipe_data
          ({ acc.1 with pages := setA acc.1.pages recipe.slug html_content },
           acc.2 ++ [recipe_data]))
        (st, ([] : List WebRecipeView))
      let st := { built.1 with recipesIndex := some built.2 }
      let st := generate_sitemap st
      (st, true)

/-- Publish a list of identifiers one after another, collecting each call's
boolean outcome. -/
def pubAll : SiteState → List String → SiteState × List Bool
  | st, [] => (st, [])
  | st, recipe_id :: rest =>
    let pr := publish_recipe st recipe_id
    let rec_ := pubAll pr.1 rest
    (rec_.1, pr.2 :: rec_.2)

/-- A record store whose `published` directory holds exactly the given
records (stamped `published`) and whose other directories are empty. -/
def publishedStore (rs : List Recipe) : RecipeFS :=
  fun s =>
    if s = RecipeStatus.published then
      rs.map (fun r => (r.recipe_id, { r with status := RecipeStatus.published }))
    else []

/-- A record store whose `approved` directory holds exactly the given
records (stamped `approved`) and whose other directories are empty. -/
def approvedStore (rs : List Recipe) : RecipeFS :=
  fun s =>
    if s = RecipeStatus.approved then
      rs.map (fun r => (r.recipe_id, { r with status := RecipeStatus.approved }))
    else []

/-- The rebuild side of the refinement comparison: the records are all
published, and the generated artifacts (pages, index, sitemap) start in an
arbitrary — possibly stale — state. -/
def rebuildStartState (rs : List Recipe) (tmpl today : String)
    (pages0 : List (String × String)) (idx0 : Option (List WebRecipeView))
    (sm0 : Option (List String)) : SiteState :=
  { dataFS := publishedStore rs, pages := pages0, recipesIndex := idx0,
    sitemap := sm0, template := some tmpl, today := today }

/-- The incremental side of the refinement comparison: the records are all
approved and no artifact has been generated yet. -/
def incrementalStartState (rs : List Recipe) (tmpl today : String) : SiteState :=
  { dataFS := approvedStore rs, pages := [], recipesIndex := none,
    sitemap := none, template := some tmpl, today := today }

/-- A state with no published records but one stale generated page. -/
def stalePagesState : SiteState :=
  { dataFS := fun _ => [], pages := [("stale", "old")],
    recipesIndex := none, sitemap := none,
    template := some "T", today := "2026-01-01" }

/-! ## Concrete states used by witnesses and counterexamples -/

/-- A small concrete record used by witnesses (status `pending` by
default). -/
def sampleRecipe : Recipe :=
  { recipe_id := "r1"
    title := "Lemon Ricotta Muffins"
    concept := "lemon ricotta"
    description := "Bright lemon muffins."
    ingredients := [[("item", "Eggs"), ("amount", "6 large")],
                    [("item", "Flour"), ("amount", "1 cup")]]
    instructions := ["Preheat oven.", "Mix.", "Bake."]
    prep_time_minutes := 10
    cook_time_minutes := 20
    slug := "lemon-ricotta-muffins" }

/-- A pipeline whose one active context was revision-routed to the
`complete` stage (reachable because `request_revisions` accepts any
target stage). -/
def revisedToComplete : RecipePipeline :=
  { active_recipes :=
      [("r1",
        { recipe_id := "r1"
          concept := "c"
          current_stage := .complete
          revision_requests := [{ stage := "complete", reason := "skip",
                                  requested_by := "tester" }]
          revision_count := 1 })]
    completed_recipes := [] }

/-- A record store holding exactly one document, for `sampleRecipe` in the
`pending` directory. -/
def pendingOnlyFS : RecipeFS :=
  fun s => if s = RecipeStatus.pending then [("r1", sampleRecipe)] else []

/-- A publishing state whose store holds only the pending `sampleRecipe`
and which has a page template. -/
def pendingOnlyState : SiteState :=
  { dataFS := pendingOnlyFS
    template := some "<html>\x7b\x7b title \x7d\x7d</html>"
    today := "2026-01-01" }

/-- A publishing state whose index holds one entry, the view of
`sampleRecipe`. -/
def oneEntryIndexState : SiteState :=
  { dataFS := fun _ => []
    recipesIndex := some [recipe_to_web_format sampleRecipe]
    today := "2026-01-01" }

/-! ## Association-list lemmas -/

theorem lookupA_setA_self {α : Type} (l : List (String × α)) (k : String) (v : α) :
    lookupA (setA l k v) k = some v := by
  induction l with
  | nil => simp [setA, lookupA]
  | cons hd tl ih =>
    obtain ⟨k', v'⟩ := hd
    by_cases h : k' = k
    · subst h
      simp [setA, lookupA]
    · simp [setA, lookupA, h, ih]

theorem lookupA_setA_ne {α : Type} (l : List (String × α)) (k k' : String) (v : α)
    (h : k' ≠ k) : lookupA (setA l k v) k' = lookupA l k' := by
  induction l with
  | nil => simp [setA, lookupA, Ne.symm h]
  | cons hd tl ih =>
    obtain ⟨a, b⟩ := hd
    by_cases ha : a = k <;> by_cases ha' : a = k'
    · exact absurd (ha'.symm.trans ha) h
    · simp [setA, lookupA, ha, ha', ih, Ne.symm h]
    · simp [setA, lookupA, ha, ha', ih, h]
    · simp [setA, lookupA, ha, ha', ih]

theorem setA_setA {α : Type} (l : List (String × α)) (k : String) (v v' : α) :
    setA (setA l k v) k v' = setA l k v' := by
  induction l with
  | nil => simp [setA]
  | cons hd tl ih =>
    obtain ⟨a, b⟩ := hd
    by_cases ha : a = k
    · subst ha
      simp [setA]
    · simp [setA, ha, ih]

theorem lookupA_delK_self {α : Type} (l : List (String × α)) (k : String) :
    lookupA (delK l k) k = none := by
  induction l with
  | nil => simp [delK, lookupA]
  | cons hd tl ih =>
    obtain ⟨a, b⟩ := hd
    by_cases ha : a = k
    · simp [delK, ha, ih]
    · simp [delK, lookupA, ha, ih]

theorem lookupA_delK_ne {α : Type} (l : List (String × α)) (k k' : String)
    (h : k' ≠ k) : lookupA (delK l k) k' = lookupA l k' := by
  induction l with
  | nil => simp [delK]
  | cons hd tl ih =>
    obtain ⟨a, b⟩ := hd
    by_cases ha : a = k <;> by_cases ha' : a = k'
    · exact absurd (ha'.symm.trans ha) h
    · simp [delK, lookupA, ha, ha', ih, Ne.symm h]
    · simp [delK, lookupA, ha, ha', ih, h]
    · simp [delK, lookupA, ha, ha', ih]

/-! ## Claims about the stage engine -/

/-- C5 counterexample: `start_recipe` on an identifier that is already
active does not fail — it returns normally and replaces the existing
context (the concept changes from the first to the second call's). -/
theorem start_recipe_overwrites_active :
    lookupA ((RecipePipeline.init.start_recipe "r1" "Lemon Ricotta").1.active_recipes) "r1" =
      some { recipe_id := "r1", concept := "Lemon Ricotta" } ∧
    lookupA (((RecipePipeline.init.start_recipe "r1" "Lemon Ricotta").1.start_recipe
        "r1" "Banana Bread").1.active_recipes) "r1" =
      some { recipe_id := "r1", concept := "Banana Bread" } := by
  constructor <;> rfl

/-- C5 (amended): `start_recipe(id, concept)` never fails: for every
pipeline state, including one where `id` is already active, it binds a
fresh context for `id` at the initial stage, replacing any existing one. -/
theorem start_recipe_always_binds_fresh (p : RecipePipeline) (recipe_id concept : String) :
    lookupA (p.start_recipe recipe_id concept).1.active_recipes recipe_id =
      some { recipe_id := recipe_id, concept := concept } ∧
    (p.start_recipe recipe_id concept).2 =
      { recipe_id := recipe_id, concept := concept } := by
  exact ⟨lookupA_setA_self _ _ _, rfl⟩

/-- C2: for every identifier started via `start_recipe`, seven
`advance_stage` calls with no work product succeed and return the stages
recipe_development, photography, copywriting, creative_review,
final_approval, deployment, complete in exactly this order, after which
the context is absent from the active set and present in the completed
set at the terminal stage. -/
theorem advance_visits_fixed_stage_order (p : RecipePipeline) (recipe_id concept : String) :
    ∃ p', advanceTimes recipe_id 7 (p.start_recipe recipe_id concept).1 =
        Except.ok (p', [PipelineStage.recipe_development, PipelineStage.photography,
          PipelineStage.copywriting, PipelineStage.creative_review,
          PipelineStage.final_approval, PipelineStage.deployment,
          PipelineStage.complete]) ∧
      lookupA p'.active_recipes recipe_id = none ∧
      ∃ ctx ∈ p'.completed_recipes, ctx.recipe_id = recipe_id ∧
        ctx.current_stage = PipelineStage.complete := by
  have h : advanceTimes recipe_id 7 (p.start_recipe recipe_id concept).1 =
      Except.ok (⟨delK (setA p.active_recipes recipe_id
          ⟨recipe_id, concept, .deployment, [], [], [], [], [], 0⟩) recipe_id,
        p.completed_recipes ++ [⟨recipe_id, concept, .complete, [], [], [], [], [], 0⟩]⟩,
        [PipelineStage.recipe_development, PipelineStage.photography,
          PipelineStage.copywriting, PipelineStage.creative_review,
          PipelineStage.final_approval, PipelineStage.deployment,
          PipelineStage.complete]) := by
    simp [RecipePipeline.start_recipe, advanceTimes, RecipePipeline.advance_stage,
      lookupA_setA_self, setA_setA, STAGE_FLOW]
  exact ⟨_, h, lookupA_delK_self _ _,
    ⟨⟨recipe_id, concept, .complete, [], [], [], [], [], 0⟩, by simp, rfl, rfl⟩⟩

/-! ## Claims about `parse_duration` -/

theorem searchDigits_none (l : List Char) (h : ∀ c ∈ l, ¬ c.isDigit) :
    searchDigits l = none := by
  induction l with
  | nil => rfl
  | cons c rest ih =>
    have hc := h c (by simp)
    simp only [searchDigits, if_neg hc]
    exact ih fun d hd => h d (List.mem_cons_of_mem _ hd)

theorem takeDigits_all_append (r post : List Char) (hr : ∀ c ∈ r, c.isDigit)
    (hpost : ∀ c, post.head? = some c → ¬ c.isDigit) :
    takeDigits (r ++ post) = r := by
  induction r with
  | nil =>
    cases post with
    | nil => rfl
    | cons d rest =>
      have hd := hpost d rfl
      simp [takeDigits, hd]
  | cons c rest ih =>
    have hc := hr c (by simp)
    simp only [List.cons_append, takeDigits, if_pos hc, List.cons.injEq, true_and]
    exact ih fun d hd => hr d (by simp [hd])

theorem searchDigits_decomp (pre r post : List Char) (hr : r ≠ [])
    (hdig : ∀ c ∈ r, c.isDigit) (hpre : ∀ c ∈ pre, ¬ c.isDigit)
    (hpost : ∀ c, post.head? = some c → ¬ c.isDigit) :
    searchDigits (pre ++ r ++ post) = some r := by
  induction pre with
  | nil =>
    cases r with
    | nil => exact absurd rfl hr
    | cons c rest =>
      have hc := hdig c (by simp)
      simp only [List.nil_append, List.cons_append, searchDigits, if_pos hc,
        Option.some.injEq, List.cons.injEq, true_and]
      exact takeDigits_all_append rest post (fun d hd => hdig d (by simp [hd])) hpost
  | cons c pres ih =>
    have hc := hpre c (by simp)
    simp only [List.cons_append, searchDigits, if_neg hc]
    exact ih fun d hd => hpre d (by simp [hd])

/-- C8 counterexample: on `"007 mins"` the code returns the digit run
verbatim (`"PT007M"`), not the decimal rendering of the first integer
occurring in the string (`7`, giving `"PT7M"`). -/
theorem parse_duration_keeps_leading_zeros :
    parse_duration "007 mins" = "PT007M" ∧
    parse_duration_claimed "007 mins" = "PT7M" ∧
    parse_duration "007 mins" ≠ parse_duration_claimed "007 mins" :=
  ⟨rfl, rfl, by decide⟩

/-- C8 (amended): `parse_duration` maps an empty string or a string with
no digit to `"PT0M"`, and any string whose first maximal digit run is `r`
to `"PT" ++ r ++ "M"` with the run kept verbatim (so leading zeros are
preserved; the result is `'PT<n>M'` for the first integer `n` only when
the run has no leading zero). -/
theorem parse_duration_first_digit_run (s : String) :
    ((∀ c ∈ s.data, ¬ c.isDigit) → parse_duration s = "PT0M") ∧
    (∀ pre r post, s.data = pre ++ r ++ post → r ≠ [] →
      (∀ c ∈ r, c.isDigit) → (∀ c ∈ pre, ¬ c.isDigit) →
      (∀ c, post.head? = some c → ¬ c.isDigit) →
      parse_duration s = "PT" ++ String.mk r ++ "M") := by
  constructor
  · intro h
    unfold parse_duration
    by_cases hs : s = ""
    · simp [hs]
    · simp [hs, searchDigits_none s.data h]
  · intro pre r post hsplit hr hdig hpre hpost
    have hS : searchDigits s.data = some r := by
      rw [hsplit]
      exact searchDigits_decomp pre r post hr hdig hpre hpost
    have hs : ¬ s = "" := by
      intro h0
      rw [h0] at hsplit
      have : pre ++ r ++ post = [] := hsplit.symm
      rcases List.append_eq_nil.mp this with ⟨h1, -⟩
      rcases List.append_eq_nil.mp h1 with ⟨-, h2⟩
      exact hr h2
    unfold parse_duration
    simp [hs, hS]

/-- C8 witness: the amended theorem applied to `"25 mins"`. -/
theorem parse_duration_first_digit_run_witness :
    parse_duration "25 mins" = "PT25M" :=
  (parse_duration_first_digit_run "25 mins").2 [] ['2', '5']
    [' ', 'm', 'i', 'n', 's'] (by decide) (by decide) (by decide) (by decide)
    (by decide)

/-- C9 counterexample: an active context can sit at the `complete` stage
(via `request_revisions`, which accepts any target); `advance_stage` with
a non-empty work product then raises the no-successor error instead of
returning silently. -/
theorem advance_on_complete_stage_errors :
    (RecipePipeline.init.start_recipe "r1" "c").1.request_revisions "r1"
        PipelineStage.complete "skip" "tester" =
      Except.ok (revisedToComplete, PipelineStage.complete) ∧
    revisedToComplete.advance_stage "r1" (some [("photos", PyVal.strList ["a.jpg"])]) =
      Except.error (PipelineError.noNextStage PipelineStage.complete) :=
  ⟨rfl, rfl⟩

/-- C9 (amended): for every active context whose current stage is none of
recipe_development, photography, copywriting — and is not the successorless
`complete` stage — `advance_stage` with a non-empty work product succeeds,
silently discarding the work product: the resulting context is the old one
with only `current_stage` replaced, so `recipe_data`, `photos` and
`recipe_copy` are unchanged. -/
theorem advance_discards_work_product_on_nonslot_stage
    (p : RecipePipeline) (recipe_id : String) (ctx : RecipeContext) (wp : WorkProduct)
    (hmem : lookupA p.active_recipes recipe_id = some ctx)
    (hwp : wp.isEmpty = false)
    (h1 : ctx.current_stage ≠ PipelineStage.recipe_development)
    (h2 : ctx.current_stage ≠ PipelineStage.photography)
    (h3 : ctx.current_stage ≠ PipelineStage.copywriting)
    (h4 : ctx.current_stage ≠ PipelineStage.complete) :
    ∃ next, STAGE_FLOW ctx.current_stage = some next ∧
      p.advance_stage recipe_id (some wp) =
        Except.ok
          (if next = PipelineStage.complete then
            { active_recipes := delK p.active_recipes recipe_id,
              completed_recipes :=
                p.completed_recipes ++ [{ ctx with current_stage := next }] }
          else
            { p with
              active_recipes :=
                setA p.active_recipes recipe_id ({ ctx with current_stage := next }) },
          next) := by
  cases hc : ctx.current_stage with
  | ideation =>
    refine ⟨.recipe_development, rfl, ?_⟩
    simp [RecipePipeline.advance_stage, hmem, hc, hwp, STAGE_FLOW]
  | recipe_development => exact absurd hc h1
  | photography => exact absurd hc h2
  | copywriting => exact absurd hc h3
  | creative_review =>
    refine ⟨.final_approval, rfl, ?_⟩
    simp [RecipePipeline.advance_stage, hmem, hc, hwp, STAGE_FLOW]
  | revisions =>
    refine ⟨.creative_review, rfl, ?_⟩
    simp [RecipePipeline.advance_stage, hmem, hc, hwp, STAGE_FLOW]
  | final_approval =>
    refine ⟨.deployment, rfl, ?_⟩
    simp [RecipePipeline.advance_stage, hmem, hc, hwp, STAGE_FLOW]
  | deployment =>
    refine ⟨.complete, rfl, ?_⟩
    simp [RecipePipeline.advance_stage, hmem, hc, hwp, STAGE_FLOW]
  | complete => exact absurd hc h4

/-- C9 witness: the amended theorem applied to a fresh context at
`ideation` with a non-empty work product; the work product is discarded
and the three slots stay empty. -/
theorem advance_discards_work_product_witness :
    ([("k", PyVal.str "v")] : WorkProduct).isEmpty = false ∧
    ∃ pr, (RecipePipeline.init.start_recipe "r1" "c").1.advance_stage "r1"
        (some [("k", PyVal.str "v")]) = Except.ok pr ∧
      ∃ ctx', lookupA pr.1.active_recipes "r1" = some ctx' ∧
        ctx'.recipe_data = [] ∧ ctx'.photos = [] ∧ ctx'.recipe_copy = [] := by
  have h := advance_discards_work_product_on_nonslot_stage
    (RecipePipeline.init.start_recipe "r1" "c").1 "r1"
    { recipe_id := "r1", concept := "c" } [("k", PyVal.str "v")]
    rfl rfl (by decide) (by decide) (by decide) (by decide)
  obtain ⟨next, hflow, heq⟩ := h
  have hnext : next = PipelineStage.recipe_development := by
    have h' : some PipelineStage.recipe_development = some next := hflow
    exact (Option.some.inj h').symm
  subst hnext
  simp only [reduceIte] at heq
  refine ⟨rfl, _, heq, ?_⟩
  exact ⟨_, lookupA_setA_self _ _ _, rfl, rfl, rfl⟩

/-! ## Claims about the site index upsert -/

theorem upsertBySlug_cons_eq (a : WebRecipeView) (l : List WebRecipeView)
    (v : WebRecipeView) (ha : a.slug = v.slug) :
    upsertBySlug (a :: l) v = v :: l := by
  unfold upsertBySlug
  rw [List.findIdx?_cons, if_pos (by simp [ha])]
  rfl

theorem upsertBySlug_cons_ne (a : WebRecipeView) (l : List WebRecipeView)
    (v : WebRecipeView) (ha : ¬ a.slug = v.slug) :
    upsertBySlug (a :: l) v = a :: upsertBySlug l v := by
  unfold upsertBySlug
  rw [List.findIdx?_cons, if_neg (by simp [ha]), List.findIdx?_succ]
  cases h : List.findIdx? (fun r => decide (r.slug = v.slug)) l with
  | none => simp [h]
  | some j => simp [h]

theorem upsertBySlug_append (l : List WebRecipeView) (v : WebRecipeView)
    (h : ∀ y ∈ l, y.slug ≠ v.slug) : upsertBySlug l v = l ++ [v] := by
  induction l with
  | nil => rfl
  | cons a l ih =>
    rw [upsertBySlug_cons_ne a l v (h a (by simp))]
    simp only [List.cons_append, List.cons.injEq, true_and]
    exact ih fun y hy => h y (by simp [hy])

theorem upsertBySlug_replace (l₁ l₂ : List WebRecipeView) (x v : WebRecipeView)
    (hx : x.slug = v.slug) (h : ∀ y ∈ l₁, y.slug ≠ v.slug) :
    upsertBySlug (l₁ ++ x :: l₂) v = l₁ ++ v :: l₂ := by
  induction l₁ with
  | nil => simpa using upsertBySlug_cons_eq x l₂ v hx
  | cons a l₁ ih =>
    rw [List.cons_append, upsertBySlug_cons_ne a _ v (h a (by simp))]
    simp only [List.cons_append, List.cons.injEq, true_and]
    exact ih fun y hy => h y (by simp [hy])

theorem firstSlugSplit (l : List WebRecipeView) (s : String)
    (h : s ∈ l.map (fun r => r.slug)) :
    ∃ l₁ x l₂, l = l₁ ++ x :: l₂ ∧ x.slug = s ∧ ∀ y ∈ l₁, y.slug ≠ s := by
  induction l with
  | nil => simp at h
  | cons a l ih =>
    by_cases ha : a.slug = s
    · exact ⟨[], a, l, rfl, ha, by simp⟩
    · have h' : s ∈ l.map (fun r => r.slug) := by
        rcases (by simpa using h) with h0 | h0
        · exact absurd h0.symm ha
        · simpa using h0
      obtain ⟨l₁, x, l₂, heq, hx, hfst⟩ := ih h'
      refine ⟨a :: l₁, x, l₂, by simp [heq], hx, ?_⟩
      intro y hy
      rcases (by simpa using hy) with h0 | h0
      · exact h0 ▸ ha
      · exact hfst y h0

/-- C7: if the site index has at most one entry per slug, the index-upsert
step of publish preserves this: the entry with the record's slug is
replaced in place when present, and the view is appended exactly when no
entry with that slug exists. -/
theorem update_recipes_index_upsert (st : SiteState) (v : WebRecipeView)
    (h : ((loadIndex st).map (fun r => r.slug)).Nodup) :
    ((loadIndex (update_recipes_index st v)).map (fun r => r.slug)).Nodup ∧
    (v.slug ∈ (loadIndex st).map (fun r => r.slug) →
      ∃ l₁ x l₂, loadIndex st = l₁ ++ x :: l₂ ∧ x.slug = v.slug ∧
        loadIndex (update_recipes_index st v) = l₁ ++ v :: l₂) ∧
    (v.slug ∉ (loadIndex st).map (fun r => r.slug) →
      loadIndex (update_recipes_index st v) = loadIndex st ++ [v]) := by
  have hload : loadIndex (update_recipes_index st v) =
      upsertBySlug (loadIndex st) v := rfl
  by_cases hmem : v.slug ∈ (loadIndex st).map (fun r => r.slug)
  · obtain ⟨l₁, x, l₂, heq, hx, hfst⟩ := firstSlugSplit (loadIndex st) v.slug hmem
    have hrepl : upsertBySlug (loadIndex st) v = l₁ ++ v :: l₂ := by
      rw [heq]
      exact upsertBySlug_replace l₁ l₂ x v hx hfst
    have hmap : (l₁ ++ v :: l₂).map (fun r => r.slug) =
        (loadIndex st).map (fun r => r.slug) := by
      simp [heq, hx]
    refine ⟨?_, fun _ => ⟨l₁, x, l₂, heq, hx, by rw [hload, hrepl]⟩,
      fun hn => absurd hmem hn⟩
    rw [hload, hrepl, hmap]
    exact h
  · have happ : upsertBySlug (loadIndex st) v = loadIndex st ++ [v] := by
      refine upsertBySlug_append _ _ ?_
      intro y hy hcontra
      exact hmem (by simpa [hcontra] using List.mem_map_of_mem (fun r => r.slug) hy)
    refine ⟨?_, fun hm => absurd hm hmem, fun _ => by rw [hload, happ]⟩
    rw [hload, happ]
    simp only [List.map_append, List.map_cons, List.map_nil]
    rw [List.nodup_append]
    refine ⟨h, List.nodup_singleton _, ?_⟩
    intro a ha hb
    have hav : a = v.slug := by simpa using hb
    exact hmem (hav ▸ ha)

/-- C7 witness: the theorem applied to a one-entry index and a fresh view
with a different slug. -/
theorem update_recipes_index_upsert_witness :
    ((loadIndex oneEntryIndexState).map (fun r => r.slug)).Nodup ∧
    ((loadIndex (update_recipes_index oneEntryIndexState
        (recipe_to_web_format ({ sampleRecipe with slug := "banana-bread" })))).map
      (fun r => r.slug)).Nodup :=
  ⟨by decide,
   (update_recipes_index_upsert oneEntryIndexState
      (recipe_to_web_format ({ sampleRecipe with slug := "banana-bread" }))
      (by decide)).1⟩

/-! ## Claims about publish failure behaviour -/

/-- C4: `publish_recipe` on a record whose status is not `approved` fails
with `False` and performs no writes at all: the returned state is exactly
the input state (pages, index, sitemap and record store all unchanged). -/
theorem publish_not_approved_no_writes (st : SiteState) (recipe_id : String)
    (r : Recipe) (hload : load_recipe st recipe_id = some r)
    (hst : r.status ≠ RecipeStatus.approved) :
    publish_recipe st recipe_id = (st, false) := by
  simp [publish_recipe, publishAttempt, hload, hst]

/-- C4 witness: publishing the pending `sampleRecipe` fails and leaves the
state untouched. -/
theorem publish_not_approved_no_writes_witness :
    load_recipe pendingOnlyState "r1" = some sampleRecipe ∧
    sampleRecipe.status ≠ RecipeStatus.approved ∧
    publish_recipe pendingOnlyState "r1" = (pendingOnlyState, false) :=
  ⟨rfl, by decide,
   publish_not_approved_no_writes pendingOnlyState "r1" sampleRecipe rfl (by decide)⟩

/-- C10: `publish_recipe` is a total `Bool`-valued function (no exception
escapes the try block) and it reports `False` exactly when one of the
modelled internal failures occurred — a missing record, a non-approved
status, or a missing template — all collapsed into the same observable,
so the causes are indistinguishable to the caller. -/
theorem publish_failure_reported_only_as_false (st : SiteState) (recipe_id : String) :
    (publish_recipe st recipe_id).2 = false ↔
      load_recipe st recipe_id = none ∨
      (∃ r, load_recipe st recipe_id = some r ∧ r.status ≠ RecipeStatus.approved) ∨
      st.template = none := by
  cases hload : load_recipe st recipe_id with
  | none => simp [publish_recipe, publishAttempt, hload]
  | some r =>
    by_cases hst : r.status = RecipeStatus.approved
    · cases htmpl : st.template with
      | none => simp [publish_recipe, publishAttempt, hload, hst, htmpl]
      | some t => simp [publish_recipe, publishAttempt, hload, hst, htmpl]
    · simp [publish_recipe, publishAttempt, hload, hst]

/-! ## Claims about the batch publisher -/

theorem filter_status_partition_length (l : List ItemOutcome)
    (h : ∀ o ∈ l, o.status = "published" ∨ o.status = "failed") :
    (l.filter (fun o => o.status = "published")).length +
      (l.filter (fun o => o.status = "failed")).length = l.length := by
  induction l with
  | nil => rfl
  | cons o l ih =>
    have ho := h o (by simp)
    have ih' := ih fun o' ho' => h o' (by simp [ho'])
    rcases ho with ho | ho
    · simp [List.filter_cons, ho]
      omega
    · simp [List.filter_cons, ho]
      omega

theorem publishAll_foldl (rs : List Recipe) :
    ∀ (st : SiteState) (acc : BatchResult),
      ∃ new, (rs.foldl publishAllStep (st, acc)).2.recipes = acc.recipes ++ new ∧
        new.map (fun o => (o.recipe_id, o.title)) =
          rs.map (fun r => (r.recipe_id, r.title)) ∧
        (∀ o ∈ new, o.status = "published" ∨ o.status = "failed") ∧
        (rs.foldl publishAllStep (st, acc)).2.success =
          acc.success + (new.filter (fun o => o.status = "published")).length ∧
        (rs.foldl publishAllStep (st, acc)).2.failed =
          acc.failed + (new.filter (fun o => o.status = "failed")).length ∧
        (rs.foldl publishAllStep (st, acc)).2.total = acc.total := by
  induction rs with
  | nil =>
    intro st acc
    exact ⟨[], by simp, by simp, by simp, by simp, by simp, rfl⟩
  | cons r rs ih =>
    intro st acc
    by_cases hb : (publish_recipe st r.recipe_id).2 = true
    · have hstep : publishAllStep (st, acc) r =
          ((publish_recipe st r.recipe_id).1,
           ⟨acc.success + 1, acc.failed, acc.total,
            acc.recipes ++ [⟨r.recipe_id, r.title, "published"⟩]⟩) := by
        simp [publishAllStep, hb]
      obtain ⟨new, h1, h2, h3, h4, h5, h6⟩ :=
        ih (publish_recipe st r.recipe_id).1
          ⟨acc.success + 1, acc.failed, acc.total,
           acc.recipes ++ [⟨r.recipe_id, r.title, "published"⟩]⟩
      refine ⟨(⟨r.recipe_id, r.title, "published"⟩ : ItemOutcome) :: new,
        ?_, ?_, ?_, ?_, ?_, ?_⟩
      · rw [List.foldl_cons, hstep, h1]
        simp
      · simp [h2]
      · intro o ho
        rcases (by simpa using ho : o = ⟨r.recipe_id, r.title, "published"⟩ ∨ o ∈ new)
          with h0 | h0
        · exact Or.inl (by rw [h0])
        · exact h3 o h0
      · rw [List.foldl_cons, hstep, h4]
        simp [List.filter_cons]
        omega
      · rw [List.foldl_cons, hstep, h5]
        simp [List.filter_cons]
      · rw [List.foldl_cons, hstep, h6]
    · have hb' : (publish_recipe st r.recipe_id).2 = false := by
        simpa using hb
      have hstep : publishAllStep (st, acc) r =
          ((publish_recipe st r.recipe_id).1,
           ⟨acc.success, acc.failed + 1, acc.total,
            acc.recipes ++ [⟨r.recipe_id, r.title, "failed"⟩]⟩) := by
        simp [publishAllStep, hb']
      obtain ⟨new, h1, h2, h3, h4, h5, h6⟩ :=
        ih (publish_recipe st r.recipe_id).1
          ⟨acc.success, acc.failed + 1, acc.total,
           acc.recipes ++ [⟨r.recipe_id, r.title, "failed"⟩]⟩
      refine ⟨(⟨r.recipe_id, r.title, "failed"⟩ : ItemOutcome) :: new,
        ?_, ?_, ?_, ?_, ?_, ?_⟩
      · rw [List.foldl_cons, hstep, h1]
        simp
      · simp [h2]
      · intro o ho
        rcases (by simpa using ho : o = ⟨r.recipe_id, r.title, "failed"⟩ ∨ o ∈ new)
          with h0 | h0
        · exact Or.inr (by rw [h0])
        · exact h3 o h0
      · rw [List.foldl_cons, hstep, h4]
        simp [List.filter_cons]
      · rw [List.foldl_cons, hstep, h5]
        simp [List.filter_cons]
        omega
      · rw [List.foldl_cons, hstep, h6]

/-- C6: `publish_all_approved` publishes each approved record in turn,
never aborting: it returns the snapshot's length as `total`, one per-item
outcome entry per approved record in order, each marked published or
failed, and success/failed counts that tally the outcome list and sum to
the total. -/
theorem publish_all_complete_outcomes (st : SiteState) :
    (publish_all_approved st).2.total =
      (Recipe.list_by_status st.dataFS RecipeStatus.approved).length ∧
    (publish_all_approved st).2.recipes.map (fun o => (o.recipe_id, o.title)) =
      (Recipe.list_by_status st.dataFS RecipeStatus.approved).map
        (fun r => (r.recipe_id, r.title)) ∧
    (∀ o ∈ (publish_all_approved st).2.recipes,
      o.status = "published" ∨ o.status = "failed") ∧
    (publish_all_approved st).2.success =
      ((publish_all_approved st).2.recipes.filter
        (fun o => o.status = "published")).length ∧
    (publish_all_approved st).2.failed =
      ((publish_all_approved st).2.recipes.filter
        (fun o => o.status = "failed")).length ∧
    (publish_all_approved st).2.success + (publish_all_approved st).2.failed =
      (publish_all_approved st).2.total := by
  by_cases hl : Recipe.list_by_status st.dataFS RecipeStatus.approved = []
  · simp [publish_all_approved, hl]
  · have hne : (Recipe.list_by_status st.dataFS RecipeStatus.approved).isEmpty
        = false := by
      simpa [List.isEmpty_iff] using hl
    have hres : publish_all_approved st =
        (Recipe.list_by_status st.dataFS RecipeStatus.approved).foldl publishAllStep
          (st, ⟨0, 0, (Recipe.list_by_status st.dataFS RecipeStatus.approved).length,
            []⟩) := by
      simp [publish_all_approved, hne]
    obtain ⟨new, h1, h2, h3, h4, h5, h6⟩ :=
      publishAll_foldl (Recipe.list_by_status st.dataFS RecipeStatus.approved) st
        ⟨0, 0, (Recipe.list_by_status st.dataFS RecipeStatus.approved).length, []⟩
    rw [hres]
    have h1' : ((Recipe.list_by_status st.dataFS RecipeStatus.approved).foldl
        publishAllStep (st, ⟨0, 0,
          (Recipe.list_by_status st.dataFS RecipeStatus.approved).length, []⟩)).2.recipes
        = new := by
      simpa using h1
    have h4' : ((Recipe.list_by_status st.dataFS RecipeStatus.approved).foldl
        publishAllStep (st, ⟨0, 0,
          (Recipe.list_by_status st.dataFS RecipeStatus.approved).length, []⟩)).2.success
        = (new.filter (fun o => o.status = "published")).length := by
      simpa using h4
    have h5' : ((Recipe.list_by_status st.dataFS RecipeStatus.approved).foldl
        publishAllStep (st, ⟨0, 0,
          (Recipe.list_by_status st.dataFS RecipeStatus.approved).length, []⟩)).2.failed
        = (new.filter (fun o => o.status = "failed")).length := by
      simpa using h5
    have hpart := filter_status_partition_length new h3
    have hlen : new.length =
        (Recipe.list_by_status st.dataFS RecipeStatus.approved).length := by
      simpa using congrArg List.length h2
    refine ⟨h6, ?_, ?_, ?_, ?_, ?_⟩
    · rw [h1']
      exact h2
    · rw [h1']
      exact h3
    · rw [h1', h4']
    · rw [h1', h5']
    · rw [h4', h5', h6]
      exact hpart.trans hlen

/-! ## Claims about the status lifecycle -/

theorem status_mem_statuses (s : RecipeStatus) : s ∈ statuses := by
  cases s <;> simp [statuses]

theorem transition_status_eq (r : Recipe) (fs : RecipeFS) (new_status : RecipeStatus)
    (notes : Option String) :
    ∃ r2, r2.recipe_id = r.recipe_id ∧ r2.status = new_status ∧
      r.transition_status new_status fs notes =
        (r2,
         if (lookupA ((r2.save_to_file fs) r.status) r2.recipe_id).isSome ∧
             r.status ≠ new_status then
           fun s => if s = r.status then delK ((r2.save_to_file fs) s) r2.recipe_id
                    else (r2.save_to_file fs) s
         else r2.save_to_file fs) := by
  cases notes with
  | none => exact ⟨{ r with status := new_status }, rfl, rfl, rfl⟩
  | some n =>
    by_cases hn : n = ""
    · refine ⟨{ r with status := new_status }, rfl, rfl, ?_⟩
      simp [Recipe.transition_status, hn]
    · refine ⟨{ r with status := new_status, review_notes := some n }, rfl, rfl, ?_⟩
      simp [Recipe.transition_status, hn]

theorem transition_status_preserves_oneDoc (r : Recipe) (fs : RecipeFS)
    (new_status : RecipeStatus) (notes : Option String) (h : oneDocInv fs r) :
    oneDocInv (r.transition_status new_status fs notes).2
      (r.transition_status new_status fs notes).1 := by
  obtain ⟨r2, hrid, hrst, heq⟩ := transition_status_eq r fs new_status notes
  rw [heq]
  unfold oneDocInv
  by_cases hsame : r.status = new_status
  · rw [if_neg (by simp [hsame])]
    intro s hs
    unfold Recipe.save_to_file
    by_cases hs' : s = r2.status
    · simp [hs', lookupA_setA_self]
    · simp only [if_neg hs']
      rw [hrid]
      have hiff := h s hs
      rw [hsame, ← hrst] at hiff
      exact hiff
  · have hex : (lookupA (fs r.status) r.recipe_id).isSome :=
      (h r.status (status_mem_statuses _)).mpr rfl
    have hcond : (lookupA ((r2.save_to_file fs) r.status) r2.recipe_id).isSome ∧
        r.status ≠ new_status := by
      refine ⟨?_, hsame⟩
      unfold Recipe.save_to_file
      rw [if_neg (by rw [hrst]; exact hsame), hrid]
      exact hex
    rw [if_pos hcond]
    intro s hs
    by_cases hso : s = r.status
    · simp only [if_pos hso]
      rw [lookupA_delK_self]
      simp only [Option.isSome_none, Bool.false_eq_true, false_iff]
      rw [hso, hrst]
      exact hsame
    · simp only [if_neg hso]
      unfold Recipe.save_to_file
      by_cases hsn : s = r2.status
      · simp [hsn, lookupA_setA_self]
      · simp only [if_neg hsn]
        rw [hrid]
        have hiff := h s hs
        simp [hiff, hso, hsn]

/-- C1: starting from a store satisfying the one-document invariant for a
record, any sequence of completed `transition_status` calls preserves it:
after each call there is exactly one on-disk document for the identifier
across the four status directories, in the directory of the record's
current status (every prefix of the sequence is itself such a sequence, so
the invariant holds after each call). -/
theorem transition_sequence_one_doc (r : Recipe) (fs : RecipeFS)
    (steps : List (RecipeStatus × Option String)) (h : oneDocInv fs r) :
    oneDocInv (runTransitions r fs steps).2 (runTransitions r fs steps).1 := by
  induction steps generalizing r fs with
  | nil => exact h
  | cons stp rest ih =>
    obtain ⟨st, nts⟩ := stp
    exact ih (r.transition_status st fs nts).1 (r.transition_status st fs nts).2
      (transition_status_preserves_oneDoc r fs st nts h)

/-- C1 witness: the pending `sampleRecipe` approved and then published;
the invariant holds before and after the sequence. -/
theorem transition_sequence_one_doc_witness :
    oneDocInv pendingOnlyFS sampleRecipe ∧
    oneDocInv (runTransitions sampleRecipe pendingOnlyFS
        [(RecipeStatus.approved, none),
         (RecipeStatus.published, some "Published to live site")]).2
      (runTransitions sampleRecipe pendingOnlyFS
        [(RecipeStatus.approved, none),
         (RecipeStatus.published, some "Published to live site")]).1 :=
  ⟨by decide,
   transition_sequence_one_doc sampleRecipe pendingOnlyFS
     [(RecipeStatus.approved, none),
      (RecipeStatus.published, some "Published to live site")] (by decide)⟩

/-! ## Rebuild versus incremental publishing -/

theorem setA_append_of_none {α : Type} (l : List (String × α)) (k : String) (v : α)
    (h : lookupA l k = none) : setA l k v = l ++ [(k, v)] := by
  induction l with
  | nil => rfl
  | cons e rest ih =>
    obtain ⟨k', v'⟩ := e
    by_cases hk : k' = k
    · simp [lookupA, hk] at h
    · simp only [setA, if_neg hk, List.cons_append, List.cons.injEq, true_and]
      exact ih (by simpa [lookupA, hk] using h)

theorem delK_of_not_mem {α : Type} (l : List (String × α)) (k : String)
    (h : ∀ e ∈ l, e.1 ≠ k) : delK l k = l := by
  induction l with
  | nil => rfl
  | cons e rest ih =>
    simp only [delK, if_neg (h e (by simp))]
    simp only [List.cons.injEq, true_and]
    exact ih fun e' he' => h e' (by simp [he'])

theorem lookupA_append_none {α : Type} (l₁ l₂ : List (String × α)) (k : String)
    (h : lookupA l₁ k = none) : lookupA (l₁ ++ l₂) k = lookupA l₂ k := by
  induction l₁ with
  | nil => rfl
  | cons e rest ih =>
    obtain ⟨k', v'⟩ := e
    by_cases hk : k' = k
    · simp [lookupA, hk] at h
    · simp only [List.cons_append, lookupA, if_neg hk]
      exact ih (by simpa [lookupA, hk] using h)

theorem foldl_setA_pairs {α : Type} (ps : List (String × α)) :
    ∀ acc, (∀ e ∈ ps, lookupA acc e.1 = none) → (ps.map Prod.fst).Nodup →
      ps.foldl (fun a e => setA a e.1 e.2) acc = acc ++ ps := by
  induction ps with
  | nil => intro acc _ _; simp
  | cons e ps ih =>
    intro acc hfresh hnd
    have hnd' : (e.1 :: ps.map Prod.fst).Nodup := by simpa using hnd
    have hfresh' : ∀ e' ∈ ps, lookupA (acc ++ [(e.1, e.2)]) e'.1 = none := by
      intro e' he'
      have h1 : lookupA acc e'.1 = none := hfresh e' (by simp [he'])
      have hne : ¬ (e.1 = e'.1) := by
        have hnotin := (List.nodup_cons.mp hnd').1
        intro hc
        exact hnotin (by simpa [hc] using List.mem_map_of_mem Prod.fst he')
      rw [lookupA_append_none acc [(e.1, e.2)] e'.1 h1]
      simp [lookupA, hne]
    rw [List.foldl_cons, setA_append_of_none acc e.1 e.2 (hfresh e (by simp)),
      ih (acc ++ [(e.1, e.2)]) hfresh' hnd'.of_cons]
    simp

theorem lookupA_perm {α : Type} : ∀ {l₁ l₂ : List (String × α)}, l₁.Perm l₂ →
    (l₁.map Prod.fst).Nodup → ∀ k, lookupA l₁ k = lookupA l₂ k := by
  intro l₁ l₂ h
  induction h with
  | nil => intro _ _; rfl
  | cons x h ih =>
    intro hnd k
    obtain ⟨a, va⟩ := x
    have hnd' := by simpa using hnd
    by_cases ha : a = k
    · simp [lookupA, ha]
    · simp only [lookupA, if_neg ha]
      exact ih hnd'.2 k
  | swap x y l =>
    intro hnd k
    obtain ⟨a, va⟩ := x
    obtain ⟨b, vb⟩ := y
    rcases (by simpa using hnd) with ⟨⟨hab, -⟩, -, -⟩
    by_cases ha : a = k <;> by_cases hb : b = k
    · exact absurd (hb.trans ha.symm) hab
    · simp [lookupA, ha, hb]
    · simp [lookupA, ha, hb]
    · simp [lookupA, ha, hb]
  | trans h₁ h₂ ih₁ ih₂ =>
    intro hnd k
    rw [ih₁ hnd k]
    exact ih₂ (((h₁.map Prod.fst).nodup_iff).mp hnd) k

theorem foldl_upsert_fresh (vs : List WebRecipeView) :
    ∀ acc : List WebRecipeView, (∀ v ∈ vs, ∀ y ∈ acc, y.slug ≠ v.slug) →
      ((vs.map (fun v => v.slug)).Nodup) →
      vs.foldl upsertBySlug acc = acc ++ vs := by
  induction vs with
  | nil => intro acc _ _; simp
  | cons v vs ih =>
    intro acc hfresh hnd
    obtain ⟨hv, hnd'⟩ : v.slug ∉ vs.map (fun v => v.slug) ∧
        (vs.map (fun v => v.slug)).Nodup := by simpa using hnd
    have hfresh' : ∀ v' ∈ vs, ∀ y ∈ acc ++ [v], y.slug ≠ v'.slug := by
      intro v' hv' y hy
      rcases (by simpa using hy : y ∈ acc ∨ y = v) with hy | hy
      · exact hfresh v' (by simp [hv']) y hy
      · rw [hy]
        intro hc
        exact hv (hc ▸ List.mem_map_of_mem _ hv')
    rw [List.foldl_cons,
      upsertBySlug_append acc v (fun y hy => hfresh v (by simp) y hy),
      ih (acc ++ [v]) hfresh' hnd']
    simp

theorem rebuild_foldl_spec (tmpl : String) (ps : List Recipe) :
    ∀ (st : SiteState) (vs : List WebRecipeView),
      ps.foldl (fun (acc : SiteState × List WebRecipeView) recipe =>
          ({ acc.1 with
             pages := setA acc.1.pages recipe.slug (render_recipe_page tmpl (recipe_to_web_format recipe)) },
           acc.2 ++ [recipe_to_web_format recipe])) (st, vs) =
        ({ st with
           pages := ps.foldl (fun a recipe => setA a recipe.slug (render_recipe_page tmpl (recipe_to_web_format recipe))) st.pages },
         vs ++ ps.map recipe_to_web_format) := by
  induction ps with
  | nil => intro st vs; simp
  | cons r ps ih =>
    intro st vs
    rw [List.foldl_cons, ih]
    simp

theorem rebuild_eval (rs : List Recipe) (tmpl today : String)
    (pages0 : List (String × String)) (idx0 : Option (List WebRecipeView))
    (sm0 : Option (List String)) (hne : rs ≠ [])
    (hslugs : (rs.map (fun r => r.slug)).Nodup) :
    rebuild_site (rebuildStartState rs tmpl today pages0 idx0 sm0) =
      ({ dataFS := publishedStore rs,
         pages := rs.map (fun r => (r.slug, render_recipe_page tmpl (recipe_to_web_format r))),
         recipesIndex := some (rs.map recipe_to_web_format),
         sitemap := some (sitemapLines today (rs.map recipe_to_web_format)),
         template := some tmpl, today := today }, true) := by
  have hnotempty :
      (rs.map (fun r => ({ r with status := RecipeStatus.published } : Recipe))).isEmpty
        = false := by
    cases rs with
    | nil => exact absurd rfl hne
    | cons a l => rfl
  have hpages : (rs.map (fun r => ({ r with status := RecipeStatus.published } : Recipe))).foldl
      (fun a recipe => setA a recipe.slug (render_recipe_page tmpl (recipe_to_web_format recipe))) [] =
      rs.map (fun r => (r.slug, render_recipe_page tmpl (recipe_to_web_format r))) := by
    have h := foldl_setA_pairs
      (rs.map (fun r => (r.slug, render_recipe_page tmpl (recipe_to_web_format r)))) []
      (fun e _ => rfl) (by simpa [List.map_map] using hslugs)
    rw [List.foldl_map] at h
    rw [List.foldl_map]
    simpa using h
  have hlist : Recipe.list_by_status (publishedStore rs) RecipeStatus.published =
      rs.map (fun r => ({ r with status := RecipeStatus.published } : Recipe)) := by
    simp [Recipe.list_by_status, publishedStore]
  have hidx : List.map recipe_to_web_format
      (rs.map (fun r => ({ r with status := RecipeStatus.published } : Recipe))) =
      rs.map recipe_to_web_format := by
    rw [List.map_map]
    rfl
  unfold rebuild_site
  simp only [rebuildStartState, hlist, hnotempty, Bool.false_eq_true, if_false,
    rebuild_foldl_spec, hpages, generate_sitemap, loadIndex, hidx, List.nil_append]

theorem publish_approved_step (st : SiteState) (r : Recipe) (tmpl : String)
    (htmpl : st.template = some tmpl)
    (hload : load_recipe st r.recipe_id = some r)
    (hst : r.status = RecipeStatus.approved)
    (happr : (lookupA (st.dataFS RecipeStatus.approved) r.recipe_id).isSome = true) :
    ∃ r2 : Recipe, r2.recipe_id = r.recipe_id ∧
      publish_recipe st r.recipe_id =
        ({ dataFS := fun s =>
             if s = RecipeStatus.approved then delK (st.dataFS s) r.recipe_id
             else if s = RecipeStatus.published then setA (st.dataFS s) r.recipe_id r2
             else st.dataFS s,
           pages := setA st.pages r.slug (render_recipe_page tmpl (recipe_to_web_format r)),
           recipesIndex := some (upsertBySlug (loadIndex st) (recipe_to_web_format r)),
           sitemap := some (sitemapLines st.today (upsertBySlug (loadIndex st) (recipe_to_web_format r))),
           template := st.template,
           today := st.today }, true) := by
  obtain ⟨r2, hrid2, hrst2, heq⟩ :=
    transition_status_eq r st.dataFS RecipeStatus.published (some "Published to live site")
  refine ⟨r2, hrid2, ?_⟩
  have hcond : (lookupA ((r2.save_to_file st.dataFS) r.status) r2.recipe_id).isSome ∧
      r.status ≠ RecipeStatus.published := by
    constructor
    · unfold Recipe.save_to_file
      rw [if_neg (by rw [hst, hrst2]; decide), hrid2, hst]
      exact happr
    · rw [hst]
      decide
  have hfs : (r.transition_status RecipeStatus.published st.dataFS
      (some "Published to live site")).2 =
      fun s => if s = RecipeStatus.approved then delK (st.dataFS s) r.recipe_id
               else if s = RecipeStatus.published then setA (st.dataFS s) r.recipe_id r2
               else st.dataFS s := by
    rw [heq]
    simp only [if_pos hcond]
    funext s
    by_cases hsa : s = RecipeStatus.approved
    · rw [hst]
      simp only [if_pos hsa]
      unfold Recipe.save_to_file
      rw [hsa, if_neg (by rw [hrst2]; decide), hrid2]
    · rw [hst]
      simp only [if_neg hsa]
      unfold Recipe.save_to_file
      by_cases hsp : s = RecipeStatus.published
      · rw [if_pos (by rw [hrst2]; exact hsp), if_pos hsp, hrid2]
      · rw [if_neg (by rw [hrst2]; exact hsp), if_neg hsp]
  simp only [publish_recipe, publishAttempt, hload, htmpl, update_recipes_index,
    generate_sitemap, loadIndex,
    if_neg (show ¬ (r.status ≠ RecipeStatus.approved) by simp [hst])]
  rw [hfs]

theorem pubAll_run (tmpl today : String) (rem : List Recipe) :
    ∀ st : SiteState,
      st.template = some tmpl →
      st.today = today →
      (∀ q ∈ rem, lookupA (st.dataFS RecipeStatus.pending) q.recipe_id = none) →
      st.dataFS RecipeStatus.approved = rem.map (fun q => (q.recipe_id, q)) →
      (∀ q ∈ rem, q.status = RecipeStatus.approved) →
      ((rem.map (fun q => q.recipe_id)).Nodup) →
      (∀ b ∈ (pubAll st (rem.map (fun q => q.recipe_id))).2, b = true) ∧
      (pubAll st (rem.map (fun q => q.recipe_id))).1.pages =
        rem.foldl (fun a q => setA a q.slug (render_recipe_page tmpl (recipe_to_web_format q))) st.pages ∧
      loadIndex (pubAll st (rem.map (fun q => q.recipe_id))).1 =
        rem.foldl (fun a q => upsertBySlug a (recipe_to_web_format q)) (loadIndex st) ∧
      (pubAll st (rem.map (fun q => q.recipe_id))).1.template = st.template ∧
      (pubAll st (rem.map (fun q => q.recipe_id))).1.today = st.today ∧
      (rem ≠ [] →
        (pubAll st (rem.map (fun q => q.recipe_id))).1.recipesIndex =
          some (rem.foldl (fun a q => upsertBySlug a (recipe_to_web_format q)) (loadIndex st)) ∧
        (pubAll st (rem.map (fun q => q.recipe_id))).1.sitemap =
          some (sitemapLines today
            (rem.foldl (fun a q => upsertBySlug a (recipe_to_web_format q)) (loadIndex st)))) := by
  induction rem with
  | nil =>
    intro st _ _ _ _ _ _
    exact ⟨by simp [pubAll], rfl, rfl, rfl, rfl, fun h => absurd rfl h⟩
  | cons q rest ih =>
    intro st htmpl htoday hpend happrdir hstatus hnd
    have hndq : q.recipe_id ∉ rest.map (fun q' => q'.recipe_id) ∧
        (rest.map (fun q' => q'.recipe_id)).Nodup := by simpa using hnd
    have hqst := hstatus q (by simp)
    have hload : load_recipe st q.recipe_id = some q := by
      have hp := hpend q (by simp)
      simp [load_recipe, statuses, load_recipe_scan, hp, happrdir, lookupA]
    have happr : (lookupA (st.dataFS RecipeStatus.approved) q.recipe_id).isSome = true := by
      rw [happrdir]
      simp [lookupA]
    obtain ⟨r2, hrid2, hpub⟩ := publish_approved_step st q tmpl htmpl hload hqst happr
    obtain ⟨stN, hpubN⟩ : ∃ stN, publish_recipe st q.recipe_id = (stN, true) := ⟨_, hpub⟩
    rw [hpubN] at hpub
    have hN := congrArg Prod.fst hpub
    simp only [] at hN
    have hNpages : stN.pages =
        setA st.pages q.slug (render_recipe_page tmpl (recipe_to_web_format q)) := by
      rw [hN]
    have hNtmpl : stN.template = some tmpl := by
      rw [hN]
      exact htmpl
    have hNtoday : stN.today = today := by
      rw [hN]
      exact htoday
    have hNidx : loadIndex stN = upsertBySlug (loadIndex st) (recipe_to_web_format q) := by
      rw [hN]
      rfl
    have hNsitemap : stN.sitemap =
        some (sitemapLines today (upsertBySlug (loadIndex st) (recipe_to_web_format q))) := by
      rw [← htoday]
      exact congrArg SiteState.sitemap hN
    have hNrecidx : stN.recipesIndex =
        some (upsertBySlug (loadIndex st) (recipe_to_web_format q)) := by
      rw [hN]
    have hNpend : ∀ q' ∈ rest, lookupA (stN.dataFS RecipeStatus.pending) q'.recipe_id = none := by
      intro q' h'
      rw [hN]
      simpa using hpend q' (by simp [h'])
    have hNappr : stN.dataFS RecipeStatus.approved = rest.map (fun q' => (q'.recipe_id, q')) := by
      rw [hN]
      simp only [reduceIte]
      rw [happrdir]
      simp only [List.map_cons, delK, if_pos rfl]
      apply delK_of_not_mem
      intro e he
      obtain ⟨q', hq', rfl⟩ := List.mem_map.mp he
      intro hc
      exact hndq.1 (hc ▸ List.mem_map_of_mem _ hq')
    obtain ⟨ih1, ih2, ih3, ih4, ih5, ih6⟩ :=
      ih stN hNtmpl hNtoday hNpend hNappr (fun q' h' => hstatus q' (by simp [h'])) hndq.2
    have hPA : pubAll st ((q :: rest).map (fun q' => q'.recipe_id)) =
        ((pubAll stN (rest.map (fun q' => q'.recipe_id))).1,
         true :: (pubAll stN (rest.map (fun q' => q'.recipe_id))).2) := by
      simp only [List.map_cons, pubAll, hpubN]
    rw [hPA]
    refine ⟨?_, ?_, ?_, ?_, ?_, ?_⟩
    · intro b hb
      rcases (by simpa using hb : b = true ∨ b ∈ _) with hb | hb
      · exact hb
      · exact ih1 b hb
    · rw [List.foldl_cons, ih2, hNpages]
    · rw [List.foldl_cons, ih3, hNidx]
    · rw [ih4, hNtmpl, htmpl]
    · rw [ih5, hNtoday, htoday]
    · intro _
      by_cases hr : rest = []
      · subst hr
        simp only [List.map_nil, pubAll, List.foldl_cons, List.foldl_nil]
        exact ⟨hNrecidx, hNsitemap⟩
      · obtain ⟨ih6a, ih6b⟩ := ih6 hr
        constructor
        · rw [List.foldl_cons, ← hNidx]
          exact ih6a
        · rw [List.foldl_cons, ← hNidx]
          exact ih6b

/-- C3 (amended): over a nonempty fixed set of published records with
pairwise-distinct slugs and identifiers (as the data model requires),
`rebuild_site` clears the generated output tree — its page tree is
independent of any stale pages — and produces per-recipe pages
observationally equal to those of publishing the same records
incrementally from `approved` (in any order) over a clean output state, an
index equal up to ordering, and sitemaps that are the same deterministic
function of the respective indices.  When the published set is empty,
`rebuild_site` returns success without clearing or rewriting anything, so
the clearing part of the original claim fails there (see the
counterexample). -/
theorem rebuild_matches_incremental (rs rs' : List Recipe) (tmpl today : String)
    (pages0 : List (String × String)) (idx0 : Option (List WebRecipeView))
    (sm0 : Option (List String))
    (hne : rs ≠ []) (hperm : rs'.Perm rs)
    (hslugs : (rs.map (fun r => r.slug)).Nodup)
    (hids : (rs.map (fun r => r.recipe_id)).Nodup) :
    (rebuild_site (rebuildStartState rs tmpl today pages0 idx0 sm0)).2 = true ∧
    (∀ b ∈ (pubAll (incrementalStartState rs' tmpl today)
        (rs'.map (fun r => r.recipe_id))).2, b = true) ∧
    (∀ k, lookupA (rebuild_site (rebuildStartState rs tmpl today pages0 idx0 sm0)).1.pages k =
      lookupA (pubAll (incrementalStartState rs' tmpl today)
        (rs'.map (fun r => r.recipe_id))).1.pages k) ∧
    ∃ iR iI,
      (rebuild_site (rebuildStartState rs tmpl today pages0 idx0 sm0)).1.recipesIndex
        = some iR ∧
      (pubAll (incrementalStartState rs' tmpl today)
        (rs'.map (fun r => r.recipe_id))).1.recipesIndex = some iI ∧
      iR.Perm iI ∧
      (rebuild_site (rebuildStartState rs tmpl today pages0 idx0 sm0)).1.sitemap =
        some (sitemapLines today iR) ∧
      (pubAll (incrementalStartState rs' tmpl today)
        (rs'.map (fun r => r.recipe_id))).1.sitemap = some (sitemapLines today iI) := by
  have hslugs' : (rs'.map (fun r => r.slug)).Nodup :=
    ((hperm.map (fun r => r.slug)).nodup_iff).mpr hslugs
  have hids' : (rs'.map (fun r => r.recipe_id)).Nodup :=
    ((hperm.map (fun r => r.recipe_id)).nodup_iff).mpr hids
  have hne' : rs' ≠ [] := by
    intro h0
    rw [h0] at hperm
    exact hne (hperm.nil_eq).symm
  have hids_eq : (rs'.map (fun r => ({ r with status := RecipeStatus.approved } : Recipe))).map
      (fun q => q.recipe_id) = rs'.map (fun r => r.recipe_id) := by
    rw [List.map_map]
    rfl
  have happrdir : (incrementalStartState rs' tmpl today).dataFS RecipeStatus.approved =
      (rs'.map (fun r => ({ r with status := RecipeStatus.approved } : Recipe))).map
        (fun q => (q.recipe_id, q)) := by
    rw [List.map_map]
    rfl
  obtain ⟨P1, P2, P3, P4, P5, P6⟩ := pubAll_run tmpl today
    (rs'.map (fun r => ({ r with status := RecipeStatus.approved } : Recipe)))
    (incrementalStartState rs' tmpl today) rfl rfl (fun q _ => rfl) happrdir
    (fun q hq => by
      obtain ⟨r, -, rfl⟩ := List.mem_map.mp hq
      rfl)
    (by rw [hids_eq]; exact hids')
  rw [hids_eq] at P1 P2 P3 P6
  have hpagesI : (pubAll (incrementalStartState rs' tmpl today)
      (rs'.map (fun r => r.recipe_id))).1.pages =
      rs'.map (fun r => (r.slug, render_recipe_page tmpl (recipe_to_web_format r))) := by
    rw [P2, show (incrementalStartState rs' tmpl today).pages = [] from rfl,
      List.foldl_map]
    have h := foldl_setA_pairs
      (rs'.map (fun r => (r.slug, render_recipe_page tmpl (recipe_to_web_format r)))) []
      (fun e _ => rfl) (by rw [List.map_map]; exact hslugs')
    rw [List.foldl_map] at h
    simpa using h
  have hremne : (rs'.map (fun r => ({ r with status := RecipeStatus.approved } : Recipe)))
      ≠ [] := by
    simpa using hne'
  obtain ⟨P6a, P6b⟩ := P6 hremne
  have hfoldIdx : (rs'.map (fun r => ({ r with status := RecipeStatus.approved } : Recipe))).foldl
      (fun a q => upsertBySlug a (recipe_to_web_format q))
      (loadIndex (incrementalStartState rs' tmpl today)) =
      rs'.map recipe_to_web_format := by
    rw [show loadIndex (incrementalStartState rs' tmpl today) = [] from rfl,
      List.foldl_map]
    have h := foldl_upsert_fresh (rs'.map recipe_to_web_format) []
      (fun v _ y hy => absurd hy (List.not_mem_nil y))
      (by rw [List.map_map]; exact hslugs')
    rw [List.foldl_map] at h
    simpa using h
  rw [hfoldIdx] at P6a P6b
  have hR := rebuild_eval rs tmpl today pages0 idx0 sm0 hne hslugs
  have hRpages : (rebuild_site (rebuildStartState rs tmpl today pages0 idx0 sm0)).1.pages =
      rs.map (fun r => (r.slug, render_recipe_page tmpl (recipe_to_web_format r))) := by
    rw [hR]
  have hRidx : (rebuild_site (rebuildStartState rs tmpl today pages0 idx0 sm0)).1.recipesIndex
      = some (rs.map recipe_to_web_format) := by
    rw [hR]
  have hRsm : (rebuild_site (rebuildStartState rs tmpl today pages0 idx0 sm0)).1.sitemap =
      some (sitemapLines today (rs.map recipe_to_web_format)) := by
    rw [hR]
  refine ⟨by rw [hR], P1, ?_, rs.map recipe_to_web_format, rs'.map recipe_to_web_format,
    hRidx, P6a, (hperm.map recipe_to_web_format).symm, hRsm, P6b⟩
  intro k
  rw [hRpages, hpagesI]
  exact lookupA_perm
    ((hperm.map (fun r => (r.slug, render_recipe_page tmpl (recipe_to_web_format r)))).symm)
    (by rw [List.map_map]; exact hslugs) k

/-- C3 counterexample: with an empty set of published records,
`rebuild_site` returns success without clearing the generated output
tree: the stale page survives, while incremental publication of the same
(empty) record set over a clean output state yields no pages — so the
claimed unconditional clearing, and the observational equality it should
induce, fail for the empty set. -/
theorem rebuild_empty_set_leaves_stale_pages :
    rebuild_site stalePagesState = (stalePagesState, true) ∧
    stalePagesState.pages = [("stale", "old")] ∧
    (pubAll ({ stalePagesState with pages := [] }) []).1.pages = [] :=
  ⟨rfl, rfl, rfl⟩

/-- C3 witness: the amended theorem applied to a singleton record set,
with the rebuild side starting from a stale page tree. -/
theorem rebuild_matches_incremental_witness :
    (rebuild_site (rebuildStartState [sampleRecipe] "T" "2026-01-01"
        [("stale", "old")] none none)).2 = true ∧
    lookupA (rebuild_site (rebuildStartState [sampleRecipe] "T" "2026-01-01"
        [("stale", "old")] none none)).1.pages "lemon-ricotta-muffins" =
      lookupA (pubAll (incrementalStartState [sampleRecipe] "T" "2026-01-01")
        ([sampleRecipe].map (fun r => r.recipe_id))).1.pages "lemon-ricotta-muffins" := by
  obtain ⟨h1, h2, h3, h4⟩ := rebuild_matches_incremental [sampleRecipe] [sampleRecipe]
    "T" "2026-01-01" [("stale", "old")] none none (List.cons_ne_nil _ _)
    (List.Perm.refl _) (by simp) (by simp)
  exact ⟨h1, h3 "lemon-ricotta-muffins"⟩
